import Mathlib

/-!
Shallow embedding of the Uploader-Page document intake portal.

Components embedded from the source:
* the filename sanitizer and the upload proxy route handler
  (`POST` in `src/app/api/upload/route.ts`, given as `src/unnamed/part_001`);
* the submission orchestrator (`onSubmit` / `uploadFile` in
  `src/components/document-upload-form.tsx`);
* the submission viewer's document-list rendering
  (`SubmissionsPage` in `src/app/submissions/page.tsx`, also in
  `src/unnamed/part_001`).

JavaScript strings are modelled as Lean `String` (a wrapper around
`List Char`), JavaScript numbers that hold `Date.now()` timestamps as `Nat`
(they are non-negative integers far below 2^53, where JS arithmetic and
decimal printing are exact).
-/

namespace Uploader

/-! ## JavaScript primitives -/

/-- The decimal digit characters used when a JS number is interpolated into a
template string (`${timestamp}`). Values ≥ 10 never occur. -/
def digitChar : Nat → Char
  | 0 => '0' | 1 => '1' | 2 => '2' | 3 => '3' | 4 => '4'
  | 5 => '5' | 6 => '6' | 7 => '7' | 8 => '8' | 9 => '9'
  | _ => '*'

/-- Fuel-indexed decimal rendering of a natural number, most significant digit
first. The fuel only bounds the recursion depth; any fuel > n is enough. -/
def natReprAux : Nat → Nat → List Char
  | 0, _ => []
  | fuel + 1, n =>
    if n < 10 then [digitChar n]
    else natReprAux fuel (n / 10) ++ [digitChar (n % 10)]

/-- Decimal rendering of a JS integer, as produced by `${n}` template-string
interpolation. -/
def natRepr (n : Nat) : String := ⟨natReprAux (n + 1) n⟩

/-- Index of the last occurrence of `c`, as in JS `String.prototype.lastIndexOf`
(`none` plays the role of `-1`). -/
def lastIndexOfAux (c : Char) : List Char → Option Nat
  | [] => none
  | x :: xs =>
    match lastIndexOfAux c xs with
    | some i => some (i + 1)
    | none => if x = c then some 0 else none

/-- JS `str.split('.')`: the maximal '.'-free segments of the string, in
order.  Always non-empty (splitting the empty string gives `[""]`). -/
def splitOnDot : List Char → List (List Char)
  | [] => [[]]
  | c :: rest =>
    match splitOnDot rest with
    | [] => []
    | seg :: segs => if c = '.' then [] :: seg :: segs else (c :: seg) :: segs

/-! ## Filename sanitizer (upload route, lines 24–39)

`const safeCompanyName = companyName.replace(/[^a-zA-Z0-9]/g, '_').toLowerCase();`
After the replacement every character is ASCII alphanumeric or '_', so JS
`toLowerCase` coincides with per-character ASCII lowering. -/

/-- Matches the character class `[a-zA-Z0-9]`. -/
def isAsciiAlphaNum (c : Char) : Bool :=
  ('a' ≤ c && c ≤ 'z') || ('A' ≤ c && c ≤ 'Z') || ('0' ≤ c && c ≤ '9')

/-- Embeds `companyName.replace(/[^a-zA-Z0-9]/g, '_').toLowerCase()`. -/
def safeCompanyName (companyName : String) : String :=
  ⟨(companyName.data.map fun c => if isAsciiAlphaNum c then c else '_').map
    Char.toLower⟩

/-- Embeds `const fileExtension = originalName.split('.').pop() || '';`.
Here `pop` on the (always non-empty) segment array is its last element, and
`|| ''` maps the empty string to itself, so it is the identity. -/
def fileExtensionOf (originalName : String) : String :=
  ⟨(splitOnDot originalName.data).getLastD []⟩

/-- Embeds `originalName.substring(0, originalName.lastIndexOf('.') || originalName.length)`.
JS quirks preserved: with no '.' the index is `-1`, which is truthy, and
`substring(0, -1)` clamps to the empty string; with the last '.' at index 0
the index is falsy and the whole name is kept. -/
def baseNameOf (originalName : String) : String :=
  match lastIndexOfAux '.' originalName.data with
  | none => ""
  | some 0 => originalName
  | some i => ⟨originalName.data.take i⟩

/-- Embeds the `.replace(/[̀-ͯ]/g, '')` step — drop
combining-diacritic code points. -/
def stripDiacritics (l : List Char) : List Char :=
  l.filter fun c => !(0x300 ≤ c.toNat && c.toNat ≤ 0x36F)

/-- Matches the character class `[a-zA-Z0-9.\-_]`. -/
def isSafeBaseChar (c : Char) : Bool :=
  isAsciiAlphaNum c || c = '.' || c = '-' || c = '_'

/-- Embeds the `.replace(/[^a-zA-Z0-9.\-_]/g, '_')` step. -/
def replaceInvalidChars (l : List Char) : List Char :=
  l.map fun c => if isSafeBaseChar c then c else '_'

/-- Embeds the `.replace(/_+/g, '_')` step — collapse each run of underscores to one by
dropping every '_' that is immediately followed by another '_'. -/
def collapseUnderscores : List Char → List Char
  | [] => []
  | [c] => [c]
  | c :: d :: rest =>
    if c = '_' && d = '_' then collapseUnderscores (d :: rest)
    else c :: collapseUnderscores (d :: rest)

/-- Embeds `baseName.normalize('NFD').replace(...).replace(...).replace(...)`.
Unicode NFD normalization is not re-implemented; the pipeline is parameterized
by an arbitrary `nfd : String → String` (NFD is the identity on ASCII input,
which concrete instantiations use). -/
def safeBaseName (nfd : String → String) (baseName : String) : String :=
  ⟨collapseUnderscores (replaceInvalidChars (stripDiacritics (nfd baseName).data))⟩

/-- Embeds the template `` `${safeCompanyName}_${safeBaseName}_${timestamp}.${fileExtension}` ``. -/
def storageFileName (nfd : String → String) (companyName originalName : String)
    (timestamp : Nat) : String :=
  safeCompanyName companyName ++ "_" ++ safeBaseName nfd (baseNameOf originalName)
    ++ "_" ++ natRepr timestamp ++ "." ++ fileExtensionOf originalName

/-- The full storage key `` `${folder}/${storageFileName}` `` passed to
`supabase.storage.from('customer-documents').upload`. -/
def storagePath (nfd : String → String) (folder companyName originalName : String)
    (timestamp : Nat) : String :=
  folder ++ "/" ++ storageFileName nfd companyName originalName timestamp

/-! ## Upload proxy route handler (`POST`, upload route lines 5–67) -/

/-- An uploaded file as the route handler sees it: only the name matters to
the control flow that is modelled (the byte payload is forwarded opaquely).
A `File` object is always truthy in JS, so presence is modelled by `Option`. -/
structure JsFile where
  name : String
  deriving DecidableEq, Repr

/-- The multipart form fields of the request: `formData.get` yields `null`
(`none`) for an absent field. -/
structure UploadRequest where
  file : Option JsFile
  folder : Option String
  companyName : Option String

/-- Outcome of the `supabase.storage...upload` call: either the stored path
returned in `data.path`, or an error with a message. -/
inductive StorageResult where
  | ok (path : String)
  | err (msg : String)

/-- A JSON response body: `{ error: string }` or `{ path: string }`. -/
inductive RespBody where
  | errorMsg (msg : String)
  | pathVal (path : String)
  deriving DecidableEq, Repr

/-- An HTTP response as produced by `NextResponse.json(body, { status })`. -/
structure HttpResponse where
  status : Nat
  body : RespBody
  deriving DecidableEq, Repr

/-- JS falsiness of a nullable string field: `null` and `""` are falsy. -/
def jsFalsyStr : Option String → Bool
  | none => true
  | some s => s == ""

/-- Embeds the `POST` route handler. It is parameterized by the storage
backend's behavior (`storage`, mapping the uploaded key to the backend
outcome), the fixed `Date.now()` value `ts` of the call, and the NFD
normalization `nfd`. The trailing catch-all (500 on a thrown exception while
reading the request) is outside the modelled, non-throwing paths. -/
def POST (nfd : String → String) (storage : String → StorageResult) (ts : Nat)
    (req : UploadRequest) : HttpResponse :=
  if req.file.isNone || jsFalsyStr req.folder || jsFalsyStr req.companyName then
    ⟨400, .errorMsg "Missing required fields"⟩
  else
    let file := req.file.getD ⟨""⟩
    let folder := req.folder.getD ""
    let companyName := req.companyName.getD ""
    match storage (folder ++ "/" ++ storageFileName nfd companyName file.name ts) with
    | .err m => ⟨500, .errorMsg m⟩
    | .ok p => ⟨200, .pathVal p⟩

/-! ## Submission orchestrator (`onSubmit` in `document-upload-form.tsx`) -/

/-- The twelve `documentTypes` keys, in the order of the array literal at
lines 76–89 of `document-upload-form.tsx` (note `tk32` before `tk31`). -/
def documentTypeKeys : List String :=
  ["companyRegistration", "companyDeclaration", "importPermit",
   "tk10", "tk11", "tk32", "tk31",
   "purchaseOrder", "idCardCopy", "msds",
   "commercialInvoice", "packingList"]

/-- A single upload attempt as the orchestrator sees it. `uploadFile` returns
the path on success and `null` on any failure (non-OK response or thrown
exception, both caught inside `uploadFile`); it is modelled by the abstract
`upload` outcome function. The orchestrator then pushes the path only when it
is truthy (`if (path)`), so a `some ""` result is also discarded. -/
def uploadResultPath (upload : JsFile → String → String → Option String)
    (f : JsFile) (key companyName : String) : Option String :=
  match upload f key companyName with
  | none => none
  | some p => if p == "" then none else some p

/-- The paths accumulated for one category: the inner
`for (let i = 0; i < files.length; i++)` loop, pushing each truthy result in
file order (failures are skipped; the surrounding try/catch never fires
because `uploadFile` already catches). -/
def collectPaths (upload : JsFile → String → String → Option String)
    (companyName key : String) (files : List JsFile) : List String :=
  files.filterMap fun f => uploadResultPath upload f key companyName

/-- The `documentPaths` record after the `for (const doc of documentTypes)`
loop: every key initialized to `[]`, then filled with the collected paths.
Modelled as an association list in the fixed key order. -/
def processFiles (upload : JsFile → String → String → Option String)
    (companyName : String) (files : String → List JsFile) :
    List (String × List String) :=
  documentTypeKeys.map fun key => (key, collectPaths upload companyName key (files key))

/-- The user-visible outcome of a submission (which toast is shown). -/
inductive Outcome where
  | success
  | dbError
  | uploadFailed
  deriving DecidableEq, Repr

/-- The observable effect of `onSubmit`: the database insert that was
attempted, if any (company name with `document_paths`), and the outcome. -/
structure SubmitResult where
  dbInsert : Option (String × List (String × List String))
  outcome : Outcome
  deriving DecidableEq, Repr

/-- Embeds `onSubmit`: process all categories, then insert into
`customer_documents_multi` only if any upload succeeded
(`anyUploadsSucceeded` is set exactly when some path was pushed). The insert
result is parameterized by `dbOk`. -/
def onSubmit (upload : JsFile → String → String → Option String) (dbOk : Bool)
    (companyName : String) (files : String → List JsFile) : SubmitResult :=
  let documentPaths := processFiles upload companyName files
  let anyUploadsSucceeded := documentPaths.any fun kv => !kv.2.isEmpty
  if anyUploadsSucceeded then
    if dbOk then ⟨some (companyName, documentPaths), .success⟩
    else ⟨some (companyName, documentPaths), .dbError⟩
  else ⟨none, .uploadFailed⟩

/-! ## Submission viewer (`SubmissionsPage`, lines 194–231) -/

/-- The document-list nodes a single submission card renders:
`noDocs` is the placeholder for a null/empty `document_paths` object,
`group` is one category heading with its file links, and `noDocsFiltered` is
the placeholder appended when every category's list is empty. -/
inductive DocNode where
  | noDocs
  | group (docType : String) (paths : List String)
  | noDocsFiltered
  deriving DecidableEq, Repr

/-- Embeds the rendering of one submission's document list. A JS
`Record<string, string[]>` (JSONB) is modelled as an association list in
object-key order; `null` as `none`. Mirrors:
`!submission.document_paths || Object.keys(...).length === 0` → placeholder;
otherwise entries filtered to non-empty lists, mapped to groups, with the
second placeholder concatenated when every list is empty. -/
def renderDocs : Option (List (String × List String)) → List DocNode
  | none => [DocNode.noDocs]
  | some entries =>
    if entries.isEmpty then [DocNode.noDocs]
    else
      ((entries.filter fun kv => !kv.2.isEmpty).map fun kv =>
        DocNode.group kv.1 kv.2)
      ++ (if entries.all fun kv => kv.2.isEmpty then [DocNode.noDocsFiltered]
          else [])

/-! ## Definitions written from the spec's words, for refinement claims -/

/-- Modelled from the spec: «The filename's extension (substring after the
last `.`, or empty if none)». Used to compare the spec's description of the
extension with what the code computes. -/
def specExtensionOf (originalName : String) : String :=
  match lastIndexOfAux '.' originalName.data with
  | none => ""
  | some i => ⟨originalName.data.drop (i + 1)⟩

/-! ## Lemmas about decimal rendering -/

theorem natReprAux_congr (n : Nat) :
    ∀ f g, n < f → n < g → natReprAux f n = natReprAux g n := by
  induction n using Nat.strong_induction_on with
  | _ n ih =>
    intro f g hf hg
    cases f with
    | zero => omega
    | succ f =>
      cases g with
      | zero => omega
      | succ g =>
        simp only [natReprAux]
        by_cases h : n < 10
        · simp [h]
        · have hdiv : n / 10 < n := Nat.div_lt_self (by omega) (by omega)
          simp only [h, if_false]
          rw [ih (n / 10) hdiv f g (by omega) (by omega)]

/-- One-step unfolding of `natRepr` in uniform "prefix ++ last digit" form. -/
theorem natRepr_data (n : Nat) :
    (natRepr n).data =
      (if n < 10 then [] else (natRepr (n / 10)).data) ++ [digitChar (n % 10)] := by
  show natReprAux (n + 1) n = _
  rw [natReprAux]
  by_cases h : n < 10
  · rw [if_pos h, if_pos h, Nat.mod_eq_of_lt h, List.nil_append]
  · rw [if_neg h, if_neg h]
    show natReprAux n (n / 10) ++ _ = natReprAux (n / 10 + 1) (n / 10) ++ _
    rw [natReprAux_congr (n / 10) n (n / 10 + 1)
      (Nat.div_lt_self (by omega) (by omega)) (by omega)]

/-- A decimal rendering is never the empty character list. -/
theorem natRepr_data_ne_nil (n : Nat) : (natRepr n).data ≠ [] := by
  rw [natRepr_data]
  simp

theorem digitChar_inj :
    ∀ d₁, d₁ < 10 → ∀ d₂, d₂ < 10 → digitChar d₁ = digitChar d₂ → d₁ = d₂ := by
  decide

theorem natRepr_injective (a : Nat) : ∀ b, natRepr a = natRepr b → a = b := by
  induction a using Nat.strong_induction_on with
  | _ a ih =>
    intro b h
    have hd : (natRepr a).data = (natRepr b).data := by rw [h]
    rw [natRepr_data a, natRepr_data b] at hd
    have hinj := List.append_inj' hd (by simp)
    have hmod : a % 10 = b % 10 :=
      digitChar_inj _ (Nat.mod_lt _ (by omega)) _ (Nat.mod_lt _ (by omega))
        (by simpa using hinj.2)
    by_cases ha : a < 10
    · by_cases hb : b < 10
      · omega
      · exfalso
        have h0 := hinj.1
        rw [if_pos ha, if_neg hb] at h0
        exact natRepr_data_ne_nil (b / 10) h0.symm
    · by_cases hb : b < 10
      · exfalso
        have h0 := hinj.1
        rw [if_neg ha, if_pos hb] at h0
        exact natRepr_data_ne_nil (a / 10) h0
      · have h0 := hinj.1
        rw [if_neg ha, if_neg hb] at h0
        have hdiv : a / 10 = b / 10 :=
          ih (a / 10) (Nat.div_lt_self (by omega) (by omega)) (b / 10)
            (String.ext h0)
        omega

/-! ## Lemmas about JS split and lastIndexOf -/

theorem splitOnDot_ne_nil (l : List Char) : splitOnDot l ≠ [] := by
  cases l with
  | nil => simp [splitOnDot]
  | cons c rest =>
    simp only [splitOnDot]
    cases h : splitOnDot rest with
    | nil => exact absurd h (splitOnDot_ne_nil rest)
    | cons seg segs =>
      by_cases hc : c = '.' <;> simp [hc]

theorem splitOnDot_no_dot (l : List Char) (h : '.' ∉ l) : splitOnDot l = [l] := by
  induction l with
  | nil => rfl
  | cons c rest ih =>
    have hc : c ≠ '.' := fun hc => h (hc ▸ List.mem_cons_self c rest)
    have hrest : '.' ∉ rest := fun hr => h (List.mem_cons_of_mem c hr)
    simp only [splitOnDot, ih hrest]
    simp [hc]

theorem splitOnDot_append (a b : List Char) :
    splitOnDot (a ++ '.' :: b) = splitOnDot a ++ splitOnDot b := by
  induction a with
  | nil =>
    rw [List.nil_append]
    show (match splitOnDot b with
      | [] => []
      | seg :: segs => if ('.' : Char) = '.' then [] :: seg :: segs
        else ('.' :: seg) :: segs) = [[]] ++ splitOnDot b
    cases h : splitOnDot b with
    | nil => exact absurd h (splitOnDot_ne_nil b)
    | cons seg segs => simp
  | cons c a ih =>
    cases h : splitOnDot a with
    | nil => exact absurd h (splitOnDot_ne_nil a)
    | cons seg segs =>
      rw [List.cons_append]
      simp only [splitOnDot]
      rw [ih, h]
      by_cases hc : c = '.' <;> simp [hc]

theorem getLastD_indep {α : Type} (l : List α) (d d' : α) (h : l ≠ []) :
    l.getLastD d = l.getLastD d' := by
  cases l with
  | nil => exact absurd rfl h
  | cons x xs => rfl

theorem getLastD_append {α : Type} (l₁ l₂ : List α) (h : l₂ ≠ []) :
    ∀ d, (l₁ ++ l₂).getLastD d = l₂.getLastD d := by
  induction l₁ with
  | nil => intro d; rfl
  | cons x xs ih =>
    intro d
    rw [List.cons_append, List.getLastD_cons, ih x]
    exact getLastD_indep l₂ x d h

theorem lastIndexOfAux_eq_none (c : Char) (l : List Char) :
    lastIndexOfAux c l = none ↔ c ∉ l := by
  induction l with
  | nil => simp [lastIndexOfAux]
  | cons x xs ih =>
    simp only [lastIndexOfAux, List.mem_cons]
    cases h : lastIndexOfAux c xs with
    | some i =>
      have hc : c ∈ xs := by
        by_contra hcc
        have hnone := ih.mpr hcc
        rw [h] at hnone
        exact Option.noConfusion hnone
      simp [hc]
    | none =>
      have hc : c ∉ xs := ih.mp h
      by_cases hx : x = c
      · simp [hx]
      · simp only [hx, if_false, hc, or_false, true_iff, eq_self_iff_true]
        simp [hc]
        exact fun he => hx he.symm

/-- A list containing '.' decomposes around its last '.', and
`lastIndexOfAux` reports that position. -/
theorem exists_last_dot (l : List Char) (h : '.' ∈ l) :
    ∃ l₁ l₂, l = l₁ ++ '.' :: l₂ ∧ '.' ∉ l₂ ∧
      lastIndexOfAux '.' l = some l₁.length := by
  induction l with
  | nil => simp at h
  | cons c rest ih =>
    by_cases hr : '.' ∈ rest
    · obtain ⟨l₁, l₂, he, hn, hi⟩ := ih hr
      refine ⟨c :: l₁, l₂, by rw [he, List.cons_append], hn, ?_⟩
      simp [lastIndexOfAux, hi]
    · have hc : c = '.' := by
        rcases List.mem_cons.mp h with h1 | h2
        · exact h1.symm
        · exact absurd h2 hr
      have hnone : lastIndexOfAux '.' rest = none :=
        (lastIndexOfAux_eq_none _ _).mpr hr
      exact ⟨[], rest, by rw [hc]; rfl, hr, by simp [lastIndexOfAux, hnone, hc]⟩

/-- Characterization of the code's extension computation: with a '.' present
it is the substring after the last '.', otherwise it is the whole filename. -/
theorem fileExtensionOf_eq (name : String) :
    ('.' ∈ name.data → fileExtensionOf name = specExtensionOf name) ∧
    ('.' ∉ name.data → fileExtensionOf name = name) := by
  constructor
  · intro h
    obtain ⟨l₁, l₂, he, hn, hi⟩ := exists_last_dot name.data h
    have hdrop : name.data.drop (l₁.length + 1) = l₂ := by
      rw [he, ← List.singleton_append, ← List.append_assoc]
      have hlen : (l₁ ++ ['.']).length = l₁.length + 1 := by simp
      rw [← hlen, List.drop_left]
    have hspec : specExtensionOf name = ⟨l₂⟩ := by
      unfold specExtensionOf
      rw [hi]
      exact congrArg String.mk hdrop
    have hfile : fileExtensionOf name = ⟨l₂⟩ := by
      unfold fileExtensionOf
      rw [show name.data = l₁ ++ '.' :: l₂ from he, splitOnDot_append,
        getLastD_append _ _ (splitOnDot_ne_nil l₂) [],
        splitOnDot_no_dot l₂ hn]
      rfl
    rw [hspec, hfile]
  · intro h
    unfold fileExtensionOf
    rw [splitOnDot_no_dot name.data h]
    rfl

/-! ## Lemmas about the base-name character set -/

theorem collapseUnderscores_subset :
    ∀ l c, c ∈ collapseUnderscores l → c ∈ l := by
  intro l
  induction l with
  | nil => intro c hc; simp [collapseUnderscores] at hc
  | cons x xs ih =>
    cases xs with
    | nil => intro c hc; simpa [collapseUnderscores] using hc
    | cons y ys =>
      intro c hc
      rw [collapseUnderscores] at hc
      by_cases hxy : (x = '_' && y = '_') = true
      · rw [if_pos hxy] at hc
        exact List.mem_cons_of_mem x (ih c hc)
      · rw [if_neg hxy] at hc
        rcases List.mem_cons.mp hc with h1 | h2
        · exact h1 ▸ List.mem_cons_self _ _
        · exact List.mem_cons_of_mem x (ih c h2)

theorem replaceInvalidChars_safe :
    ∀ l c, c ∈ replaceInvalidChars l → isSafeBaseChar c = true := by
  intro l c hc
  rcases List.mem_map.mp hc with ⟨a, _, rfl⟩
  by_cases h : isSafeBaseChar a = true
  · rw [if_pos h]; exact h
  · rw [if_neg h]; decide

/-! ## Claim theorems -/

/-- C3, counterexample: the claim says the Sanitizer "emits an empty
extension when the filename contains no '.'", but for the dot-free filename
"README" the code's `split('.').pop()` yields the whole filename "README" as
the extension, which is not empty (while the spec-side extension is empty). -/
theorem c3_no_dot_extension_counterexample :
    ('.' ∉ ("README" : String).data) ∧
    fileExtensionOf "README" = "README" ∧
    fileExtensionOf "README" ≠ "" ∧
    specExtensionOf "README" = "" := by
  decide

/-- C3 (amended): for every input filename that contains a '.', the Sanitizer
preserves the original extension (the substring after the last '.') exactly
and case-sensitively, and the produced storage key ends with '.' followed by
that extension; for a filename with no '.', the emitted extension is the
entire filename (not the empty string). -/
theorem c3_extension_preservation_amended (nfd : String → String)
    (companyName name : String) (ts : Nat) :
    ('.' ∈ name.data → fileExtensionOf name = specExtensionOf name) ∧
    ('.' ∉ name.data → fileExtensionOf name = name) ∧
    storageFileName nfd companyName name ts =
      (safeCompanyName companyName ++ "_" ++ safeBaseName nfd (baseNameOf name)
        ++ "_" ++ natRepr ts) ++ ("." ++ fileExtensionOf name) := by
  refine ⟨(fileExtensionOf_eq name).1, (fileExtensionOf_eq name).2, ?_⟩
  apply String.ext
  simp [storageFileName, String.data_append, List.append_assoc]

/-- Witness for C3 (amended) at the concrete filenames "a.txt" and "README". -/
theorem c3_extension_preservation_amended_witness :
    fileExtensionOf "a.txt" = specExtensionOf "a.txt" ∧
    fileExtensionOf "README" = "README" :=
  ⟨(c3_extension_preservation_amended id "c" "a.txt" 0).1 (by decide),
   (c3_extension_preservation_amended id "c" "README" 0).2.1 (by decide)⟩

/-- C4: for company name "Acme Co.", filename "Invoice #1.pdf", category
"commercialInvoice" and timestamp 1700000000000, the sanitization produces
the storage path "commercialInvoice/acme_co__Invoice_1_1700000000000.pdf".
The NFD normalization is only assumed to fix the (all-ASCII) base name, which
real Unicode NFD does. -/
theorem c4_example_storage_path (nfd : String → String)
    (h : nfd "Invoice #1" = "Invoice #1") :
    storagePath nfd "commercialInvoice" "Acme Co." "Invoice #1.pdf" 1700000000000 =
      "commercialInvoice/acme_co__Invoice_1_1700000000000.pdf" := by
  simp only [storagePath, storageFileName,
    show baseNameOf "Invoice #1.pdf" = "Invoice #1" from by decide,
    safeBaseName, h]
  decide

/-- Witness for C4 with the identity as the (ASCII-invariant) normalization. -/
theorem c4_example_storage_path_witness :
    storagePath id "commercialInvoice" "Acme Co." "Invoice #1.pdf" 1700000000000 =
      "commercialInvoice/acme_co__Invoice_1_1700000000000.pdf" :=
  c4_example_storage_path id rfl

/-- C6: for every normalization behavior and every input base name, every
character of the sanitized base name lies in the class `[a-zA-Z0-9._-]`
(the replacement step maps everything else to '_', and collapsing
underscores introduces no new characters). -/
theorem c6_base_name_charset (nfd : String → String) (baseName : String) :
    ∀ c ∈ (safeBaseName nfd baseName).data, isSafeBaseChar c = true := by
  intro c hc
  exact replaceInvalidChars_safe _ c (collapseUnderscores_subset _ c hc)

/-- Witness for C6 at an accented base name whose normalization decomposes
the accent into a combining code point (U+0301). -/
theorem c6_base_name_charset_witness : isSafeBaseChar 'e' = true :=
  c6_base_name_charset (fun _ => ⟨['e', Char.ofNat 769]⟩) "é" 'e' (by decide)

/-- C7: for fixed normalization, category folder, company name and filename,
distinct millisecond timestamps always produce distinct storage keys. -/
theorem c7_distinct_timestamps_distinct_keys (nfd : String → String)
    (folder companyName originalName : String) (ts₁ ts₂ : Nat)
    (hne : ts₁ ≠ ts₂) :
    storagePath nfd folder companyName originalName ts₁ ≠
      storagePath nfd folder companyName originalName ts₂ := by
  intro heq
  have hd := congrArg String.data heq
  simp only [storagePath, storageFileName, String.data_append,
    List.append_assoc] at hd
  exact hne (natRepr_injective ts₁ ts₂ (String.ext
    (List.append_cancel_right
      (List.append_cancel_left (List.append_cancel_left
        (List.append_cancel_left (List.append_cancel_left
          (List.append_cancel_left (List.append_cancel_left hd)))))))))

/-- Witness for C7 at timestamps 1 and 2. -/
theorem c7_distinct_timestamps_distinct_keys_witness :
    storagePath id "commercialInvoice" "Acme" "a.pdf" 1 ≠
      storagePath id "commercialInvoice" "Acme" "a.pdf" 2 :=
  c7_distinct_timestamps_distinct_keys id "commercialInvoice" "Acme" "a.pdf"
    1 2 (by decide)

/-- C5, counterexample: a request in which all three fields are present, but
`folder` is the empty string, is rejected with HTTP 400, so "HTTP 400 exactly
when the file, folder, or companyName field is absent" does not hold. -/
theorem c5_empty_field_counterexample :
    ((⟨some ⟨"a.pdf"⟩, some "", some "x"⟩ : UploadRequest).file.isSome = true) ∧
    ((⟨some ⟨"a.pdf"⟩, some "", some "x"⟩ : UploadRequest).folder.isSome = true) ∧
    ((⟨some ⟨"a.pdf"⟩, some "", some "x"⟩ : UploadRequest).companyName.isSome = true) ∧
    (POST id (fun s => .ok s) 0 ⟨some ⟨"a.pdf"⟩, some "", some "x"⟩).status = 400 := by
  decide

/-- C5 (amended): the endpoint returns HTTP 400 with the error body exactly
when the file field is absent or the folder or companyName field is absent or
the empty string; otherwise it returns HTTP 200 with the stored path when the
storage write succeeds and HTTP 500 with the backend's message when it
fails. -/
theorem c5_status_code_amended (nfd : String → String)
    (storage : String → StorageResult) (ts : Nat) (req : UploadRequest) :
    (POST nfd storage ts req = ⟨400, .errorMsg "Missing required fields"⟩ ↔
      (req.file = none ∨ req.folder = none ∨ req.folder = some "" ∨
        req.companyName = none ∨ req.companyName = some "")) ∧
    (∀ fl fo co, req.file = some fl → req.folder = some fo → fo ≠ "" →
      req.companyName = some co → co ≠ "" →
      POST nfd storage ts req =
        match storage (fo ++ "/" ++ storageFileName nfd co fl.name ts) with
        | .ok p => ⟨200, .pathVal p⟩
        | .err m => ⟨500, .errorMsg m⟩) := by
  obtain ⟨f, fo, co⟩ := req
  constructor
  · rcases f with _ | fl
    · simp [POST, jsFalsyStr]
    · rcases fo with _ | fo
      · simp [POST, jsFalsyStr]
      · rcases co with _ | co
        · simp [POST, jsFalsyStr]
        · by_cases hfo : fo = ""
          · simp [POST, jsFalsyStr, hfo]
          · by_cases hco : co = ""
            · simp [POST, jsFalsyStr, hfo, hco]
            · cases hs : storage (fo ++ "/" ++ storageFileName nfd co fl.name ts) <;>
                simp [POST, jsFalsyStr, hfo, hco, hs]
  · intro fl' fo' co' hfl hfo hfone hco hcone
    cases hfl
    cases hfo
    cases hco
    cases hs : storage (fo' ++ "/" ++ storageFileName nfd co' fl'.name ts) <;>
      simp [POST, jsFalsyStr, hfone, hcone, hs]

/-- Witness for C5 (amended): a fully populated request hits the storage
backend and returns its outcome. -/
theorem c5_status_code_amended_witness :
    POST id (fun s => .ok s) 7 ⟨some ⟨"a.pdf"⟩, some "f", some "x"⟩ =
      ⟨200, .pathVal ("f" ++ "/" ++ storageFileName id "x" "a.pdf" 7)⟩ :=
  (c5_status_code_amended id (fun s => .ok s) 7
      ⟨some ⟨"a.pdf"⟩, some "f", some "x"⟩).2
    ⟨"a.pdf"⟩ "f" "x" rfl rfl (by decide) rfl (by decide)

/-! ## Orchestrator lemmas -/

/-- The association list written by the orchestrator always carries the
twelve fixed keys in order. -/
theorem map_fst_pairs {β : Type} (l : List String) (g : String → β) :
    (l.map fun x => (x, g x)).map Prod.fst = l := by
  induction l with
  | nil => rfl
  | cons x xs ih => simp [ih]

theorem processFiles_keys (upload : JsFile → String → String → Option String)
    (companyName : String) (files : String → List JsFile) :
    (processFiles upload companyName files).map Prod.fst = documentTypeKeys :=
  map_fst_pairs documentTypeKeys
    (fun key => collectPaths upload companyName key (files key))

/-- Whatever record `onSubmit` inserts is the company name paired with the
processed per-category path lists. -/
theorem onSubmit_dbInsert_eq (upload : JsFile → String → String → Option String)
    (dbOk : Bool) (companyName : String) (files : String → List JsFile)
    (x : String × List (String × List String))
    (hx : (onSubmit upload dbOk companyName files).dbInsert = some x) :
    x = (companyName, processFiles upload companyName files) := by
  simp only [onSubmit] at hx
  by_cases h : (processFiles upload companyName files).any
      (fun kv => !kv.2.isEmpty) = true
  · rw [if_pos h] at hx
    cases dbOk <;> simp at hx <;> exact hx.symm
  · rw [if_neg h] at hx
    simp at hx

/-- In the one-file scenario the processed record is explicit. -/
theorem processFiles_single (upload : JsFile → String → String → Option String)
    (companyName : String) (files : String → List JsFile) (k : String)
    (f : JsFile) (p : String) (hf : files k = [f])
    (hother : ∀ k', k' ≠ k → files k' = [])
    (hup : uploadResultPath upload f k companyName = some p) :
    processFiles upload companyName files =
      documentTypeKeys.map fun x => (x, if x = k then [p] else []) := by
  unfold processFiles
  apply List.map_congr_left
  intro x _
  by_cases hx : x = k
  · subst hx
    rw [hf]
    simp [collectPaths, List.filterMap_cons, hup]
  · rw [hother x hx]
    simp [collectPaths, hx]

theorem singleton_map_filter (k p : String) (hk : k ∈ documentTypeKeys) :
    ((documentTypeKeys.map fun x => (x, if x = k then [p] else [])).filter
      fun kv => !kv.2.isEmpty) = [(k, [p])] := by
  fin_cases hk <;> simp [documentTypeKeys]

theorem singleton_map_count (k p : String) (hk : k ∈ documentTypeKeys) :
    ((documentTypeKeys.map fun x => (x, if x = k then [p] else [])).countP
      fun kv => kv.2.isEmpty) = 11 := by
  fin_cases hk <;> simp [documentTypeKeys, List.countP_cons]

/-! ## Orchestrator claim theorems -/

/-- C1: when zero files upload successfully across all twelve categories
(every collected list is empty), `onSubmit` performs no database insert and
signals the total-failure outcome; conversely a database insert happens only
when some category collected at least one path. -/
theorem c1_total_failure_no_db_write
    (upload : JsFile → String → String → Option String) (dbOk : Bool)
    (companyName : String) (files : String → List JsFile) :
    ((∀ kv ∈ processFiles upload companyName files, kv.2 = []) →
      (onSubmit upload dbOk companyName files).dbInsert = none ∧
      (onSubmit upload dbOk companyName files).outcome = .uploadFailed) ∧
    ((onSubmit upload dbOk companyName files).dbInsert.isSome →
      ∃ kv ∈ processFiles upload companyName files, kv.2 ≠ []) := by
  by_cases h : (processFiles upload companyName files).any
      (fun kv => !kv.2.isEmpty) = true
  · constructor
    · intro hall
      rcases List.any_eq_true.mp h with ⟨kv, hmem, hkv⟩
      rw [hall kv hmem] at hkv
      simp at hkv
    · intro _
      rcases List.any_eq_true.mp h with ⟨kv, hmem, hkv⟩
      exact ⟨kv, hmem, by simpa using hkv⟩
  · have hval : onSubmit upload dbOk companyName files = ⟨none, .uploadFailed⟩ := by
      simp only [onSubmit]
      rw [if_neg h]
    constructor
    · intro _
      rw [hval]
      exact ⟨rfl, rfl⟩
    · intro hs
      rw [hval] at hs
      simp at hs

/-- Witness for C1: an upload backend that always fails leads to no insert
and the upload-failed outcome. -/
theorem c1_total_failure_no_db_write_witness :
    (onSubmit (fun _ _ _ => none) true "c" (fun _ => [⟨"a.pdf"⟩])).dbInsert = none ∧
    (onSubmit (fun _ _ _ => none) true "c" (fun _ => [⟨"a.pdf"⟩])).outcome =
      .uploadFailed :=
  (c1_total_failure_no_db_write (fun _ _ _ => none) true "c"
    (fun _ => [⟨"a.pdf"⟩])).1 (by decide)

/-- C2: there are twelve distinct fixed category keys; every record the
orchestrator inserts maps exactly those twelve keys in order; and in the
scenario where exactly one category holds one file whose upload succeeds and
every other category is empty, the inserted mapping has one singleton list
(for that category) and eleven empty lists. -/
theorem c2_record_has_twelve_keys :
    (documentTypeKeys.length = 12 ∧ documentTypeKeys.Nodup) ∧
    (∀ upload dbOk companyName files x,
      (onSubmit upload dbOk companyName files).dbInsert = some x →
      x.2.map Prod.fst = documentTypeKeys) ∧
    (∀ upload dbOk companyName files k f p,
      k ∈ documentTypeKeys →
      files k = [f] →
      (∀ k', k' ≠ k → files k' = []) →
      uploadResultPath upload f k companyName = some p →
      ∃ dp, (onSubmit upload dbOk companyName files).dbInsert =
          some (companyName, dp) ∧
        dp.map Prod.fst = documentTypeKeys ∧
        (dp.filter fun kv => !kv.2.isEmpty) = [(k, [p])] ∧
        (dp.countP fun kv => kv.2.isEmpty) = 11) := by
  refine ⟨by decide, ?_, ?_⟩
  · intro upload dbOk companyName files x hx
    rw [onSubmit_dbInsert_eq upload dbOk companyName files x hx]
    exact processFiles_keys upload companyName files
  · intro upload dbOk companyName files k f p hk hf hother hup
    have hdp := processFiles_single upload companyName files k f p hf hother hup
    have hmem : (k, [p]) ∈ processFiles upload companyName files := by
      rw [hdp]
      exact List.mem_map.mpr ⟨k, hk, by simp⟩
    have hany : (processFiles upload companyName files).any
        (fun kv => !kv.2.isEmpty) = true :=
      List.any_eq_true.mpr ⟨(k, [p]), hmem, by simp⟩
    refine ⟨documentTypeKeys.map fun x => (x, if x = k then [p] else []),
      ?_, ?_, singleton_map_filter k p hk, singleton_map_count k p hk⟩
    · simp only [onSubmit]
      rw [if_pos hany]
      cases dbOk <;> simp [hdp]
    · exact map_fst_pairs documentTypeKeys (fun x => if x = k then [p] else [])

/-- Witness for C2 with one file in the `msds` category. -/
theorem c2_record_has_twelve_keys_witness :
    ∃ dp, (onSubmit (fun _ _ _ => some "P") true "co"
        (fun k => if k = "msds" then [⟨"doc.pdf"⟩] else [])).dbInsert =
      some ("co", dp) ∧
      dp.map Prod.fst = documentTypeKeys ∧
      (dp.filter fun kv => !kv.2.isEmpty) = [("msds", ["P"])] ∧
      (dp.countP fun kv => kv.2.isEmpty) = 11 :=
  c2_record_has_twelve_keys.2.2 (fun _ _ _ => some "P") true "co"
    (fun k => if k = "msds" then [⟨"doc.pdf"⟩] else []) "msds" ⟨"doc.pdf"⟩ "P"
    (by decide) (by decide) (fun k' hk' => by simp [hk']) (by decide)

/-- C8: an individual failed upload contributes no path — the category's
collected list is the concatenation of the collections of the surrounding
files, so every subsequent file is still attempted — and every category's
recorded list is exactly the successful uploads of all its own files, so a
failure never aborts sibling uploads or other categories. -/
theorem c8_failed_upload_skipped
    (upload : JsFile → String → String → Option String)
    (companyName : String) (files : String → List JsFile) (k : String)
    (f : JsFile) (l₁ l₂ : List JsFile)
    (hfail : uploadResultPath upload f k companyName = none)
    (hsplit : files k = l₁ ++ f :: l₂) :
    collectPaths upload companyName k (files k) =
      collectPaths upload companyName k l₁ ++
      collectPaths upload companyName k l₂ ∧
    ∀ kv ∈ processFiles upload companyName files,
      kv.2 = collectPaths upload companyName kv.1 (files kv.1) := by
  constructor
  · rw [hsplit]
    simp [collectPaths, List.filterMap_append, List.filterMap_cons, hfail]
  · intro kv hkv
    rcases List.mem_map.mp hkv with ⟨x, _, rfl⟩
    rfl

/-- Witness for C8: a failing file in the middle of the `msds` batch is
skipped while both neighbours are collected. -/
theorem c8_failed_upload_skipped_witness :
    collectPaths (fun f _ _ => if f.name = "bad" then none else some ("P/" ++ f.name))
        "c" "msds"
        ((fun k => if k = "msds" then [⟨"g1"⟩, ⟨"bad"⟩, ⟨"g2"⟩] else []) "msds") =
      collectPaths (fun f _ _ => if f.name = "bad" then none else some ("P/" ++ f.name))
        "c" "msds" [⟨"g1"⟩] ++
      collectPaths (fun f _ _ => if f.name = "bad" then none else some ("P/" ++ f.name))
        "c" "msds" [⟨"g2"⟩] :=
  (c8_failed_upload_skipped
    (fun f _ _ => if f.name = "bad" then none else some ("P/" ++ f.name)) "c"
    (fun k => if k = "msds" then [⟨"g1"⟩, ⟨"bad"⟩, ⟨"g2"⟩] else []) "msds"
    ⟨"bad"⟩ [⟨"g1"⟩] [⟨"g2"⟩] (by decide) (by decide)).1

/-! ## Viewer claim theorems -/

theorem renderDocs_some (entries : List (String × List String)) :
    renderDocs (some entries) =
      if entries.isEmpty then [DocNode.noDocs]
      else
        ((entries.filter fun kv => !kv.2.isEmpty).map fun kv =>
          DocNode.group kv.1 kv.2)
        ++ (if entries.all fun kv => kv.2.isEmpty then [DocNode.noDocsFiltered]
            else []) := rfl

/-- C9: every rendered document group comes from an entry with a non-empty
path list (categories with empty lists are omitted), and when every
category's path list is empty the submission renders as a single placeholder
node. -/
theorem c9_viewer_omits_empty_categories (entries : List (String × List String)) :
    (∀ k l, DocNode.group k l ∈ renderDocs (some entries) →
      (k, l) ∈ entries ∧ l ≠ []) ∧
    ((∀ kv ∈ entries, kv.2 = []) →
      renderDocs (some entries) =
        [if entries.isEmpty then DocNode.noDocs else DocNode.noDocsFiltered]) := by
  constructor
  · intro k l hmem
    rw [renderDocs_some] at hmem
    by_cases he : entries.isEmpty
    · rw [if_pos he] at hmem
      simp at hmem
    · rw [if_neg he] at hmem
      rcases List.mem_append.mp hmem with h1 | h2
      · rcases List.mem_map.mp h1 with ⟨kv, hkv, heq⟩
        have hfil := List.mem_filter.mp hkv
        cases heq
        refine ⟨by simpa using hfil.1, ?_⟩
        have := hfil.2
        simp at this
        exact this
      · by_cases hall : (entries.all fun kv => kv.2.isEmpty) = true <;>
          simp [hall] at h2
  · intro hall
    rw [renderDocs_some]
    by_cases he : entries.isEmpty
    · rw [if_pos he, if_pos he]
    · rw [if_neg he, if_neg he]
      have hfilter : (entries.filter fun kv => !kv.2.isEmpty) = [] := by
        rw [List.filter_eq_nil_iff]
        intro kv hkv
        simp [hall kv hkv]
      have hallb : (entries.all fun kv => kv.2.isEmpty) = true := by
        rw [List.all_eq_true]
        intro kv hkv
        simp [hall kv hkv]
      rw [hfilter, if_pos hallb]
      simp

/-- Witness for C9: a rendered group is traced back to its non-empty entry. -/
theorem c9_viewer_omits_empty_categories_witness :
    ("b", ["p"]) ∈ [("a", ([] : List String)), ("b", ["p"])] ∧
      (["p"] : List String) ≠ [] :=
  (c9_viewer_omits_empty_categories [("a", []), ("b", ["p"])]).1 "b" ["p"]
    (by decide)

/-- C10: the viewer's document-list rendering is total on records whose
`document_paths` is null or an empty mapping — both render exactly the
"no documents" placeholder — and every record renders at least one node. -/
theorem c10_viewer_total_on_null :
    renderDocs none = [DocNode.noDocs] ∧
    renderDocs (some []) = [DocNode.noDocs] ∧
    ∀ dp, 0 < (renderDocs dp).length := by
  refine ⟨rfl, rfl, ?_⟩
  intro dp
  cases dp with
  | none => simp [renderDocs]
  | some entries =>
    rw [renderDocs_some]
    by_cases he : entries.isEmpty
    · simp [he]
    · rw [if_neg he]
      by_cases hall : (entries.all fun kv => kv.2.isEmpty) = true
      · rw [if_pos hall]
        simp
      · rw [if_neg hall]
        simp only [List.append_nil, List.length_map]
        apply List.length_pos.mpr
        have hex : ∃ kv ∈ entries, kv.2.isEmpty = false := by
          by_contra hcon
          push_neg at hcon
          apply hall
          rw [List.all_eq_true]
          intro kv hkv
          cases hb : kv.2.isEmpty with
          | true => rfl
          | false => exact absurd hb (hcon kv hkv)
        rcases hex with ⟨kv, hm, hne⟩
        exact List.ne_nil_of_mem (List.mem_filter.mpr ⟨hm, by simp [hne]⟩)

end Uploader
